import Mathlib

/-!
Verification of the in-memory tabular store of `Data code.py`
(`Dataset` / `DataManager`): a pandas DataFrame loaded from CSV, with
row insert (`add_data`), cell update (`edit_data`), row delete
(`delete_data`), summary statistics (`analyze_data`) and five fixed
row filters (`filter_data`).

The DataFrame is embedded shallowly: a `Table` is a fixed list of
column names together with a list of labeled rows (pandas keeps an
index label per row; after `reset_index` / `ignore_index` the labels
are the positions `0, 1, 2, ...`, but `DataFrame.at` assignment with a
fresh label enlarges the frame, so labels must be tracked explicitly).
A cell is a tagged scalar: integer, text, or absent (`NaN`).
-/

set_option autoImplicit false

namespace DataCode

/-- A cell value of the table: an integer, a text value, or absent
(pandas `NaN`).  The interactive shell only ever inserts integers or
strings, and `read_csv` type inference yields numeric or text columns,
so these three constructors cover the cells the program manipulates. -/
inductive Value where
  | intV : Int → Value
  | strV : String → Value
  | nullV : Value
deriving DecidableEq

open Value

/-- Positional lookup in a list, `none` when out of range
(`l.get? n` with fully controlled defining equations). -/
def nth {α : Type} : List α → Nat → Option α
  | [], _ => none
  | a :: _, 0 => some a
  | _ :: l, n + 1 => nth l n

/-- Index of the first occurrence of a column name, the length of the
list when the name is absent (the semantics of locating a column in
the frame's column axis). -/
def idxOf (c : String) : List String → Nat
  | [] => 0
  | x :: xs => if x = c then 0 else idxOf c xs + 1

/-- Positional read from a row's cell list, `nullV` when out of range
(an absent column reads as `NaN`). -/
def getV : List Value → Nat → Value
  | [], _ => nullV
  | v :: _, 0 => v
  | _ :: vs, n + 1 => getV vs n

/-- Positional write to a row's cell list; out of range writes are
dropped (they never arise on well-formed rows). -/
def setV : List Value → Nat → Value → List Value
  | [], _, _ => []
  | _ :: vs, 0, v => v :: vs
  | x :: vs, n + 1, v => x :: setV vs n v

/-- Remove the element at a position, like pandas dropping one row. -/
def dropIdx {α : Type} : List α → Nat → List α
  | [], _ => []
  | _ :: xs, 0 => xs
  | x :: xs, n + 1 => x :: dropIdx xs n

/-- Relabel rows with consecutive labels starting at `k`
(`reset_index(drop=True)` / `ignore_index=True` renumbering). -/
def renumberFrom (k : Nat) : List (List Value) → List (Nat × List Value)
  | [] => []
  | vs :: rest => (k, vs) :: renumberFrom (k + 1) rest

/-- `[k, k+1, ..., k+n-1]`, the canonical label sequence of a frame
whose index was last reset at length `n`. -/
def rangeFrom (k : Nat) : Nat → List Nat
  | 0 => []
  | n + 1 => k :: rangeFrom (k + 1) n

/-- First-binding lookup in an insert mapping (a Python dict has one
binding per key; the first binding is the dict's binding). -/
def lookupVal : List (String × Value) → String → Option Value
  | [], _ => none
  | (k, v) :: m, c => if k = c then some v else lookupVal m c

/-- Keep the first occurrence of each element (for insert-mapping keys
— a dict's keys are unique — and for the distinct values of an object
column). -/
def dedup {α : Type} [DecidableEq α] (seen : List α) : List α → List α
  | [] => []
  | k :: ks => if k ∈ seen then dedup seen ks else k :: dedup (k :: seen) ks

/-- The in-memory table owned by `Dataset`: the fixed column axis
(from the CSV header) and the labeled rows. -/
structure Table where
  cols : List String
  rows : List (Nat × List Value)
deriving DecidableEq

/-- Schema well-formedness: every row carries exactly one cell per
column of the frame (pandas maintains this for every DataFrame). -/
def Table.WF (t : Table) : Prop :=
  ∀ r ∈ t.rows, r.2.length = t.cols.length

instance (t : Table) : Decidable t.WF := by
  unfold Table.WF; infer_instance

/-- Rows labeled `k, k+1, ...` in order. -/
def canonicalFrom (k : Nat) (rs : List (Nat × List Value)) : Prop :=
  rs.map Prod.fst = rangeFrom k rs.length

instance (k : Nat) (rs : List (Nat × List Value)) : Decidable (canonicalFrom k rs) := by
  unfold canonicalFrom; infer_instance

/-- Canonical labels: row at position `j` is labeled `j`, so labels and
positional indices agree (the state of a freshly loaded frame, and of
any frame whose index was just renumbered). -/
def Table.canonical (t : Table) : Prop :=
  canonicalFrom 0 t.rows

instance (t : Table) : Decidable t.canonical := by
  unfold Table.canonical; infer_instance

/-- The cell of row `r` at column `c` of a frame with columns `cols`. -/
def cell (cols : List String) (r : List Value) (c : String) : Value :=
  getV r (idxOf c cols)

/-- The cell at row position `p`, column `c`: `nullV` when the row or
the column is absent. -/
def cellAt (t : Table) (p : Nat) (c : String) : Value :=
  match nth t.rows p with
  | none => nullV
  | some r => cell t.cols r.2 c

/-- The values of the `date` column, row by row
(`self.dataset.data['date'].values`). -/
def dateVals (t : Table) : List Value :=
  t.rows.map (fun r => cell t.cols r.2 "date")

/-- Is some row labeled `i` present (`index in df.index`)? -/
def hasLabel (i : Nat) (rs : List (Nat × List Value)) : Bool :=
  rs.any (fun r => r.1 == i)

def dupMsg : String := "Duplicate found. Data couldn\x27t be added."
def addOkMsg : String := "Data added successfully."
def editOkMsg : String := "Data edited successfully."
def delOkMsg : String := "Data deleted successfully."

/-- `DataManager.read_data`: returns the entire dataset and leaves the
stored table as it was (result, state after). -/
def read_data (t : Table) : Table × Table := (t, t)

/-- `DataManager.add_data`: `none` models an uncaught `KeyError`
(the mapping has no `date` binding for `new_row_data['date']`, or the
frame has no `date` column for `data['date']`).  Otherwise: if the new
`date` value occurs in the `date` column, report a duplicate and leave
the table untouched; else `pd.concat([...], ignore_index=True)` —
append the new row, extend the column axis by the mapping's unknown
keys in first-appearance order (old rows read `NaN` there, omitted
cells of the new row are `NaN`), and renumber all labels from 0. -/
def add_data (m : List (String × Value)) (t : Table) : Option (String × Table) :=
  if "date" ∈ t.cols then
    match lookupVal m "date" with
    | none => none
    | some d =>
      if d ∈ dateVals t then some (dupMsg, t)
      else
        let newKeys := dedup [] ((m.map Prod.fst).filter (fun k => !(decide (k ∈ t.cols))))
        let cols' := t.cols ++ newKeys
        let oldRows := t.rows.map (fun r => r.2 ++ List.replicate newKeys.length nullV)
        let newRow := cols'.map (fun c => (lookupVal m c).getD nullV)
        some (addOkMsg, ⟨cols', renumberFrom 0 (oldRows ++ [newRow])⟩)
  else none

/-- `DataManager.edit_data`: `data.at[index, column] = new_value`,
then report success.  `.at` assignment enlarges the frame in place
when a key is missing: a fresh column label is appended to the column
axis (existing rows read `NaN` there), and a fresh row label `i` adds
a new row at the end, labeled `i`, with `NaN` everywhere except the
assigned cell. -/
def edit_data (i : Nat) (c : String) (v : Value) (t : Table) : String × Table :=
  let cols' := if c ∈ t.cols then t.cols else t.cols ++ [c]
  let ext := if c ∈ t.cols then t.rows else t.rows.map (fun r => (r.1, r.2 ++ [nullV]))
  let rows' :=
    if hasLabel i t.rows then
      ext.map (fun r => if r.1 == i then (r.1, setV r.2 (idxOf c cols') v) else r)
    else
      ext ++ [(i, cols'.map (fun c2 => if c2 = c then v else nullV))]
  (editOkMsg, ⟨cols', rows'⟩)

/-- `DataManager.delete_data`:
`data.drop(index, axis=0).reset_index(drop=True)` — `none` models the
`KeyError` `drop` raises when no row is labeled `index`; otherwise the
rows labeled `index` are removed and the remaining rows are relabeled
`0, 1, 2, ...` in order. -/
def delete_data (i : Nat) (t : Table) : Option (String × Table) :=
  if hasLabel i t.rows then
    some (delOkMsg,
      ⟨t.cols, renumberFrom 0 ((t.rows.filter (fun r => !(r.1 == i))).map Prod.snd)⟩)
  else none

/-- Is this cell admissible in a numeric (int or float) column? -/
def isNumericCell : Value → Bool
  | intV _ => true
  | strV _ => false
  | nullV => true

/-- The column `c` of the frame, row by row. -/
def colValues (t : Table) (c : String) : List Value :=
  t.rows.map (fun r => cell t.cols r.2 c)

/-- A column is numeric when every cell is a number or `NaN`
(a column holding any text has pandas dtype `object` and is excluded
from `describe`). -/
def isNumericCol (t : Table) (c : String) : Bool :=
  (colValues t c).all isNumericCell

/-- The non-null values of column `c`. -/
def numericData (t : Table) (c : String) : List Int :=
  (colValues t c).filterMap (fun v =>
    match v with
    | intV z => some z
    | _ => none)

/-- One column of the `describe()` output: count, mean, squared
standard deviation (the sample variance, `ddof = 1`, so that every
entry is a rational and the development stays executable; the reported
standard deviation is its square root), minimum, the three quartiles,
and maximum.  `none` models pandas reporting `NaN` when too few values
exist. -/
structure Stats where
  count : Nat
  mean : Option Rat
  sampleVar : Option Rat
  smin : Option Rat
  q25 : Option Rat
  q50 : Option Rat
  q75 : Option Rat
  smax : Option Rat
deriving DecidableEq

/-- Insert into a sorted list of integers. -/
def insertSorted (x : Int) : List Int → List Int
  | [] => [x]
  | y :: ys => if x ≤ y then x :: y :: ys else y :: insertSorted x ys

/-- Sort a list of integers ascending. -/
def sortInts : List Int → List Int
  | [] => []
  | x :: xs => insertSorted x (sortInts xs)

/-- Mean of a list of integers, `none` when empty. -/
def meanOf (xs : List Int) : Option Rat :=
  if xs.length = 0 then none else some ((xs.sum : Rat) / (xs.length : Rat))

/-- The `q`-quantile with linear interpolation, pandas style: at rank
`h = q * (n - 1)` between the sorted positions `⌊h⌋` and `⌈h⌉` (the
ceiling computed as the floor plus one unless `h` is integral). -/
def quantileOf (xs : List Int) (q : Rat) : Option Rat :=
  match sortInts xs with
  | [] => none
  | s =>
    let n := s.length
    let h : Rat := q * ((n : Rat) - 1)
    let lo := h.floor
    let frac : Rat := h - (lo : Rat)
    let hi : Nat := if frac = 0 then lo.toNat else lo.toNat + 1
    let vlo : Rat := ((s.getD lo.toNat 0 : Int) : Rat)
    let vhi : Rat := ((s.getD hi 0 : Int) : Rat)
    some (vlo + frac * (vhi - vlo))

/-- The descriptive statistics of one numeric column, computed over
its non-null values. -/
def statsOf (xs : List Int) : Stats :=
  ⟨xs.length,
   meanOf xs,
   (if xs.length ≤ 1 then none else
     (meanOf xs).map (fun μ =>
       ((xs.map (fun x => ((x : Rat) - μ) ^ 2)).sum) / ((xs.length : Rat) - 1))),
   (sortInts xs).head?.map (fun z => (z : Rat)),
   quantileOf xs (1 / 4),
   quantileOf xs (1 / 2),
   quantileOf xs (3 / 4),
   (sortInts xs).getLast?.map (fun z => (z : Rat))⟩

/-- How many occurrences of `v` a list of cells holds. -/
def countOcc (v : Value) (vs : List Value) : Nat :=
  (vs.filter (fun w => decide (w = v))).length

/-- One column of the `describe()` output for an `object` dtype
column: count of non-null values, number of distinct non-null values,
the most frequent value (`top`, `none` when the column is all null;
ties resolved arbitrarily — here, first-seen), and its frequency. -/
structure ObjStats where
  ocount : Nat
  unique : Nat
  top : Option Value
  freq : Nat
deriving DecidableEq

/-- The object statistics of one column, over its non-null values. -/
def objStatsOf (vs : List Value) : ObjStats :=
  let nn := vs.filter (fun v => !(decide (v = nullV)))
  let distinct := dedup [] nn
  let top := distinct.foldl
    (fun best v =>
      match best with
      | none => some v
      | some b => if countOcc b nn < countOcc v nn then some v else best)
    none
  ⟨nn.length, distinct.length, top,
   match top with
   | none => 0
   | some b => countOcc b nn⟩

/-- A column of the `describe()` output: numeric statistics for a
numeric column, object statistics for an `object` column. -/
inductive ColSummary where
  | numeric : Stats → ColSummary
  | object : ObjStats → ColSummary
deriving DecidableEq

/-- `DataManager.analyze_data`: `data.describe()`.  When the frame has
at least one numeric column, the result holds one numeric-statistics
column per numeric column of the frame, in column order, the
non-numeric (`object` dtype) columns excluded.  When the frame has no
numeric column, `describe` falls back to object statistics (count,
unique, top, freq) for every column. -/
def analyze_data (t : Table) : List (String × ColSummary) :=
  let numCols := t.cols.filter (fun c => isNumericCol t c)
  if numCols.isEmpty then
    t.cols.map (fun c => (c, ColSummary.object (objStatsOf (colValues t c))))
  else
    numCols.map (fun c => (c, ColSummary.numeric (statsOf (numericData t c))))

/-- `IT >= 30000` on one row: `NaN` (and non-numeric cells) compare
false in a pandas query. -/
def itPred (t : Table) (r : Nat × List Value) : Bool :=
  match cell t.cols r.2 "IT" with
  | intV z => decide (30000 ≤ z)
  | _ => false

/-- `Marketing < 22000` on one row. -/
def marketingPred (t : Table) (r : Nat × List Value) : Bool :=
  match cell t.cols r.2 "Marketing" with
  | intV z => decide (z < 22000)
  | _ => false

/-- `Finance.notnull()` on one row. -/
def financePred (t : Table) (r : Nat × List Value) : Bool :=
  !(decide (cell t.cols r.2 "Finance" = nullV))

/-- `25000 <= Operations <= 30000` on one row. -/
def operationsPred (t : Table) (r : Nat × List Value) : Bool :=
  match cell t.cols r.2 "Operations" with
  | intV z => decide (25000 ≤ z ∧ z ≤ 30000)
  | _ => false

/-- `Month in ["January 2023", "March 2023"]` on one row. -/
def monthPred (t : Table) (r : Nat × List Value) : Bool :=
  decide (cell t.cols r.2 "Month" = strV "January 2023" ∨
    cell t.cols r.2 "Month" = strV "March 2023")

/-- `DataManager.filter_data`: one of five fixed `query` filters; the
result keeps the matching rows with their labels.  `none` models both
the `None` returned on an unrecognized choice and the error a query
raises when its column is absent from the frame. -/
def filter_data (choice : Int) (t : Table) : Option Table :=
  if choice = 1 then
    if "IT" ∈ t.cols then some ⟨t.cols, t.rows.filter (itPred t)⟩ else none
  else if choice = 2 then
    if "Marketing" ∈ t.cols then some ⟨t.cols, t.rows.filter (marketingPred t)⟩ else none
  else if choice = 3 then
    if "Finance" ∈ t.cols then some ⟨t.cols, t.rows.filter (financePred t)⟩ else none
  else if choice = 4 then
    if "Operations" ∈ t.cols then some ⟨t.cols, t.rows.filter (operationsPred t)⟩ else none
  else if choice = 5 then
    if "Month" ∈ t.cols then some ⟨t.cols, t.rows.filter (monthPred t)⟩ else none
  else none

/-- The rows of a filter result: a `None` result carries no rows. -/
def rowsOfResult : Option Table → List (Nat × List Value)
  | none => []
  | some t => t.rows

/-! ### Lemmas about the list primitives -/

theorem nth_map {α β : Type} (f : α → β) (l : List α) (n : Nat) :
    nth (l.map f) n = (nth l n).map f := by
  induction l generalizing n with
  | nil => simp [nth]
  | cons a l ih => cases n <;> simp [nth, ih]

theorem nth_append_left {α : Type} (l l2 : List α) (n : Nat) (h : n < l.length) :
    nth (l ++ l2) n = nth l n := by
  induction l generalizing n with
  | nil => simp at h
  | cons a l ih =>
    cases n with
    | zero => simp [nth]
    | succ n => simpa [nth] using ih n (by simpa using h)

theorem nth_append_right {α : Type} (l l2 : List α) (n : Nat) :
    nth (l ++ l2) (l.length + n) = nth l2 n := by
  induction l with
  | nil => simp [nth]
  | cons a l ih => simpa [nth, Nat.succ_add] using ih

theorem nth_of_lt {α : Type} (l : List α) (n : Nat) (h : n < l.length) :
    ∃ a, nth l n = some a := by
  induction l generalizing n with
  | nil => simp at h
  | cons a l ih =>
    cases n with
    | zero => exact ⟨a, rfl⟩
    | succ n => exact ih n (by simpa using h)

theorem mem_of_nth {α : Type} (l : List α) (n : Nat) (a : α) (h : nth l n = some a) :
    a ∈ l := by
  induction l generalizing n with
  | nil => simp [nth] at h
  | cons b l ih =>
    cases n with
    | zero => simp [nth] at h; simp [h]
    | succ n => exact List.mem_cons_of_mem _ (ih n h)

theorem length_renumberFrom (k : Nat) (l : List (List Value)) :
    (renumberFrom k l).length = l.length := by
  induction l generalizing k with
  | nil => rfl
  | cons vs l ih => simp [renumberFrom, ih]

theorem nth_renumberFrom (k : Nat) (l : List (List Value)) (n : Nat) :
    nth (renumberFrom k l) n = (nth l n).map (fun vs => (k + n, vs)) := by
  induction l generalizing k n with
  | nil => simp [renumberFrom, nth]
  | cons vs l ih =>
    cases n with
    | zero => simp [renumberFrom, nth]
    | succ n =>
      simp only [renumberFrom, nth, ih (k + 1) n]
      cases nth l n <;> simp [Nat.add_assoc, Nat.add_comm 1 n]

theorem map_fst_renumberFrom (k : Nat) (l : List (List Value)) :
    (renumberFrom k l).map Prod.fst = rangeFrom k l.length := by
  induction l generalizing k with
  | nil => rfl
  | cons vs l ih => simp [renumberFrom, rangeFrom, ih]

theorem canonicalFrom_renumberFrom (k : Nat) (l : List (List Value)) :
    canonicalFrom k (renumberFrom k l) := by
  unfold canonicalFrom
  rw [map_fst_renumberFrom, length_renumberFrom]

theorem canonicalFrom_cons (k : Nat) (r : Nat × List Value) (rs : List (Nat × List Value)) :
    canonicalFrom k (r :: rs) ↔ r.1 = k ∧ canonicalFrom (k + 1) rs := by
  simp [canonicalFrom, rangeFrom]

theorem eq_renumberFrom_of_canonical (k : Nat) (rs : List (Nat × List Value))
    (h : canonicalFrom k rs) : rs = renumberFrom k (rs.map Prod.snd) := by
  induction rs generalizing k with
  | nil => rfl
  | cons r rs ih =>
    rcases (canonicalFrom_cons k r rs).1 h with ⟨h1, h2⟩
    simp only [List.map_cons, renumberFrom]
    rw [← ih (k + 1) h2, ← h1]

theorem idxOf_lt_of_mem (c : String) (l : List String) (h : c ∈ l) :
    idxOf c l < l.length := by
  induction l with
  | nil => simp at h
  | cons x l ih =>
    by_cases hx : x = c
    · simp [idxOf, hx]
    · have : c ∈ l := by
        rcases List.mem_cons.1 h with h' | h'
        · exact absurd h'.symm hx
        · exact h'
      simpa [idxOf, hx] using ih this

theorem idxOf_of_not_mem (c : String) (l : List String) (h : c ∉ l) :
    idxOf c l = l.length := by
  induction l with
  | nil => rfl
  | cons x l ih =>
    have hx : ¬ x = c := fun hc => h (by simp [hc])
    have hl : c ∉ l := fun hc => h (List.mem_cons_of_mem _ hc)
    simp [idxOf, hx, ih hl]

theorem idxOf_append_of_mem (c : String) (l l2 : List String) (h : c ∈ l) :
    idxOf c (l ++ l2) = idxOf c l := by
  induction l with
  | nil => simp at h
  | cons x l ih =>
    by_cases hx : x = c
    · simp [idxOf, hx]
    · have : c ∈ l := by
        rcases List.mem_cons.1 h with h' | h'
        · exact absurd h'.symm hx
        · exact h'
      simp [idxOf, hx, ih this]

theorem idxOf_append_of_not_mem (c : String) (l l2 : List String) (h : c ∉ l) :
    idxOf c (l ++ l2) = l.length + idxOf c l2 := by
  induction l with
  | nil => simp [idxOf]
  | cons x l ih =>
    have hx : ¬ x = c := fun hc => h (by simp [hc])
    have hl : c ∉ l := fun hc => h (List.mem_cons_of_mem _ hc)
    simp [idxOf, hx, ih hl, Nat.succ_add]

theorem nth_idxOf (c : String) (l : List String) (h : c ∈ l) :
    nth l (idxOf c l) = some c := by
  induction l with
  | nil => simp at h
  | cons x l ih =>
    by_cases hx : x = c
    · simp [idxOf, hx, nth]
    · have : c ∈ l := by
        rcases List.mem_cons.1 h with h' | h'
        · exact absurd h'.symm hx
        · exact h'
      simp [idxOf, hx, nth, ih this]

theorem idxOf_inj (c c' : String) (l : List String) (hc : c ∈ l) (hc' : c' ∈ l)
    (h : idxOf c l = idxOf c' l) : c = c' := by
  have h1 := nth_idxOf c l hc
  have h2 := nth_idxOf c' l hc'
  rw [h] at h1
  rw [h1] at h2
  simpa using h2

theorem getV_append_left (l l2 : List Value) (n : Nat) (h : n < l.length) :
    getV (l ++ l2) n = getV l n := by
  induction l generalizing n with
  | nil => simp at h
  | cons a l ih =>
    cases n with
    | zero => simp [getV]
    | succ n => simpa [getV] using ih n (by simpa using h)

theorem getV_append_right (l l2 : List Value) (n : Nat) :
    getV (l ++ l2) (l.length + n) = getV l2 n := by
  induction l with
  | nil => simp [getV]
  | cons a l ih => simpa [getV, Nat.succ_add] using ih

theorem getV_of_le (l : List Value) (n : Nat) (h : l.length ≤ n) :
    getV l n = nullV := by
  induction l generalizing n with
  | nil => simp [getV]
  | cons a l ih =>
    cases n with
    | zero => simp at h
    | succ n => simpa [getV] using ih n (by simpa using h)

theorem getV_replicate (k n : Nat) : getV (List.replicate k nullV) n = nullV := by
  induction k generalizing n with
  | zero => simp [List.replicate, getV]
  | succ k ih =>
    cases n with
    | zero => simp [List.replicate, getV]
    | succ n => simpa [List.replicate, getV] using ih n

theorem getV_map (f : String → Value) (l : List String) (n : Nat) (c : String)
    (h : nth l n = some c) : getV (l.map f) n = f c := by
  induction l generalizing n with
  | nil => simp [nth] at h
  | cons x l ih =>
    cases n with
    | zero => simp [nth] at h; simp [getV, h]
    | succ n => simpa [getV] using ih n h

theorem length_setV (l : List Value) (n : Nat) (v : Value) :
    (setV l n v).length = l.length := by
  induction l generalizing n with
  | nil => rfl
  | cons a l ih => cases n <;> simp [setV, ih]

theorem getV_setV_self (l : List Value) (n : Nat) (v : Value) (h : n < l.length) :
    getV (setV l n v) n = v := by
  induction l generalizing n with
  | nil => simp at h
  | cons a l ih =>
    cases n with
    | zero => simp [setV, getV]
    | succ n => simpa [setV, getV] using ih n (by simpa using h)

theorem getV_setV_ne (l : List Value) (n m : Nat) (v : Value) (h : m ≠ n) :
    getV (setV l n v) m = getV l m := by
  induction l generalizing n m with
  | nil => rfl
  | cons a l ih =>
    cases n with
    | zero =>
      cases m with
      | zero => exact absurd rfl h
      | succ m => simp [setV, getV]
    | succ n =>
      cases m with
      | zero => simp [setV, getV]
      | succ m => simpa [setV, getV] using ih n m (fun hc => h (by simp [hc]))

theorem length_dropIdx {α : Type} (l : List α) (n : Nat) (h : n < l.length) :
    (dropIdx l n).length + 1 = l.length := by
  induction l generalizing n with
  | nil => simp at h
  | cons a l ih =>
    cases n with
    | zero => simp [dropIdx]
    | succ n => simpa [dropIdx] using ih n (by simpa using h)

theorem nth_dropIdx_lt {α : Type} (l : List α) (n j : Nat) (h : j < n) :
    nth (dropIdx l n) j = nth l j := by
  induction l generalizing n j with
  | nil => simp [dropIdx]
  | cons a l ih =>
    cases n with
    | zero => simp at h
    | succ n =>
      cases j with
      | zero => simp [dropIdx, nth]
      | succ j => simpa [dropIdx, nth] using ih n j (by omega)

theorem nth_dropIdx_ge {α : Type} (l : List α) (n j : Nat) (h : n ≤ j) :
    nth (dropIdx l n) j = nth l (j + 1) := by
  induction l generalizing n j with
  | nil => simp [dropIdx, nth]
  | cons a l ih =>
    cases n with
    | zero => simp [dropIdx, nth]
    | succ n =>
      cases j with
      | zero => simp at h
      | succ j => simpa [dropIdx, nth] using ih n j (by omega)

theorem map_dropIdx {α β : Type} (f : α → β) (l : List α) (n : Nat) :
    (dropIdx l n).map f = dropIdx (l.map f) n := by
  induction l generalizing n with
  | nil => rfl
  | cons a l ih => cases n <;> simp [dropIdx, ih]

theorem filter_label_eq_self (i k : Nat) (rs : List (Nat × List Value))
    (hc : canonicalFrom k rs) (h : i < k) :
    rs.filter (fun r => !(r.1 == i)) = rs := by
  induction rs generalizing k with
  | nil => rfl
  | cons r rs ih =>
    rcases (canonicalFrom_cons k r rs).1 hc with ⟨h1, h2⟩
    have hb : (r.1 == i) = false := by simp [h1]; omega
    simp [List.filter_cons, hb, ih (k + 1) h2 (by omega)]

theorem filter_label_eq_dropIdx (i k : Nat) (rs : List (Nat × List Value))
    (hc : canonicalFrom k rs) (hk : k ≤ i) (hi : i < k + rs.length) :
    rs.filter (fun r => !(r.1 == i)) = dropIdx rs (i - k) := by
  induction rs generalizing k with
  | nil => simp at hi; omega
  | cons r rs ih =>
    rcases (canonicalFrom_cons k r rs).1 hc with ⟨h1, h2⟩
    by_cases hik : i = k
    · have hb : (r.1 == i) = true := by simp [h1, hik]
      have hz : i - k = 0 := by omega
      simp [List.filter_cons, hb, hz, dropIdx,
        filter_label_eq_self i (k + 1) rs h2 (by omega)]
    · have hb : (r.1 == i) = false := by simp [h1]; omega
      have hs : i - k = (i - (k + 1)) + 1 := by omega
      have hi' : i < (k + 1) + rs.length := by
        simp only [List.length_cons] at hi; omega
      simp [List.filter_cons, hb, hs, dropIdx, ih (k + 1) h2 (by omega) hi']

theorem hasLabel_of_canonical (i k : Nat) (rs : List (Nat × List Value))
    (hc : canonicalFrom k rs) (hk : k ≤ i) (hi : i < k + rs.length) :
    hasLabel i rs = true := by
  induction rs generalizing k with
  | nil => simp at hi; omega
  | cons r rs ih =>
    rcases (canonicalFrom_cons k r rs).1 hc with ⟨h1, h2⟩
    by_cases hik : i = k
    · simp [hasLabel, h1, hik]
    · have hi' : i < (k + 1) + rs.length := by
        simp only [List.length_cons] at hi; omega
      have := ih (k + 1) h2 (by omega) hi'
      simp only [hasLabel, List.any_cons] at this ⊢
      simp [this]

theorem hasLabel_eq_false (i : Nat) (rs : List (Nat × List Value))
    (h : ∀ r ∈ rs, r.1 ≠ i) : hasLabel i rs = false := by
  induction rs with
  | nil => rfl
  | cons r rs ih =>
    have h1 : ¬ (r.1 == i) = true := by simp; exact h r (by simp)
    simp only [hasLabel, List.any_cons, Bool.or_eq_false_iff]
    constructor
    · simpa using h1
    · exact ih (fun r' hr' => h r' (List.mem_cons_of_mem _ hr'))

theorem lookupVal_eq_none (m : List (String × Value)) (c : String)
    (h : c ∉ m.map Prod.fst) : lookupVal m c = none := by
  induction m with
  | nil => rfl
  | cons kv m ih =>
    have h1 : ¬ kv.1 = c := fun hc => h (by simp [hc])
    have h2 : c ∉ m.map Prod.fst := fun hc => h (by simp [hc])
    cases kv with
    | mk k v => simp only [lookupVal]; rw [if_neg (by simpa using h1)]; exact ih h2

theorem mem_keys_of_lookupVal (m : List (String × Value)) (c : String) (v : Value)
    (h : lookupVal m c = some v) : c ∈ m.map Prod.fst := by
  induction m with
  | nil => simp [lookupVal] at h
  | cons kv m ih =>
    cases kv with
    | mk k w =>
      by_cases hk : k = c
      · simp [hk]
      · simp only [lookupVal, if_neg hk] at h
        simpa using Or.inr (ih h)

theorem isEmpty_eq_false_of_mem {α : Type} (l : List α) (a : α) (h : a ∈ l) :
    l.isEmpty = false := by
  cases l with
  | nil => simp at h
  | cons b bl => rfl

theorem mem_dedup {α : Type} [DecidableEq α] (k : α) (seen ks : List α)
    (h : k ∈ dedup seen ks) : k ∈ ks := by
  induction ks generalizing seen with
  | nil => simp [dedup] at h
  | cons x ks ih =>
    by_cases hx : x ∈ seen
    · simp only [dedup, if_pos hx] at h
      exact List.mem_cons_of_mem _ (ih seen h)
    · simp only [dedup, if_neg hx] at h
      rcases List.mem_cons.1 h with h' | h'
      · simp [h']
      · exact List.mem_cons_of_mem _ (ih (x :: seen) h')

theorem filter_not_mem_nil (keys cols : List String)
    (h : ∀ k ∈ keys, k ∈ cols) :
    keys.filter (fun k => !(decide (k ∈ cols))) = [] := by
  induction keys with
  | nil => rfl
  | cons x keys ih =>
    have hx : x ∈ cols := h x (by simp)
    have hd : (!(decide (x ∈ cols))) = false := by simp [hx]
    simp [List.filter_cons, hd, ih (fun k hk => h k (List.mem_cons_of_mem _ hk))]

theorem ratFloor_eq (q : Rat) : q.floor = ⌊q⌋ := rfl

theorem cellAt_of_nth (t : Table) (p : Nat) (c : String) (r : Nat × List Value)
    (h : nth t.rows p = some r) : cellAt t p c = cell t.cols r.2 c := by
  unfold cellAt
  rw [h]

theorem snd_mem_renumberFrom (k : Nat) (l : List (List Value))
    (r : Nat × List Value) (h : r ∈ renumberFrom k l) : r.2 ∈ l := by
  induction l generalizing k with
  | nil => simp [renumberFrom] at h
  | cons vs l ih =>
    rcases List.mem_cons.1 h with h' | h'
    · simp [h']
    · exact List.mem_cons_of_mem _ (ih (k + 1) h')

/-- The fresh appended row of `edit_data` holds the assigned value at
the assigned column. -/
theorem newRow_cell_self (cols' : List String) (c : String) (v : Value)
    (hc : c ∈ cols') :
    cell cols' (cols'.map fun c2 => if c2 = c then v else nullV) c = v := by
  unfold cell
  rw [getV_map _ _ _ _ (nth_idxOf c cols' hc)]
  simp

/-- The fresh appended row of `edit_data` is absent everywhere else. -/
theorem newRow_cell_other (cols' : List String) (c : String) (v : Value)
    (c' : String) (h : c' ≠ c) :
    cell cols' (cols'.map fun c2 => if c2 = c then v else nullV) c' = nullV := by
  by_cases hc' : c' ∈ cols'
  · unfold cell
    rw [getV_map _ _ _ _ (nth_idxOf c' cols' hc')]
    simp [h]
  · unfold cell
    rw [idxOf_of_not_mem _ _ hc']
    exact getV_of_le _ _ (by simp)

/-! ### Fixture tables -/

/-- A two-row table with the mandatory `date` column. -/
def T1 : Table :=
  ⟨["date", "revenue"],
   [(0, [strV "2023-01-01", intV 100]), (1, [strV "2023-01-02", intV 200])]⟩

/-- A three-row table for delete and edit fixtures. -/
def T3 : Table :=
  ⟨["date", "revenue"],
   [(0, [strV "a", intV 1]), (1, [strV "b", intV 2]), (2, [strV "c", intV 3])]⟩

/-- A one-row table used for the schema counterexample. -/
def T7 : Table := ⟨["date", "revenue"], [(0, [strV "d1", intV 5])]⟩

/-- The spec's boundary fixture for `filter(1)`: `IT` values
29000, 30000, 31000. -/
def sampleIT : Table :=
  ⟨["IT"], [(0, [intV 29000]), (1, [intV 30000]), (2, [intV 31000])]⟩

/-- The spec's fixture for `describe()`: one numeric column holding
10, 20, 30. -/
def sampleNum : Table :=
  ⟨["A"], [(0, [intV 10]), (1, [intV 20]), (2, [intV 30])]⟩

/-- A table with no numeric column (its single column holds text), the
regime in which `describe()` falls back to object statistics. -/
def sampleText : Table := ⟨["product"], [(0, [strV "x"])]⟩

/-- The statistics pandas reports for the column 10, 20, 30. -/
def sampleNumStats : Stats :=
  ⟨3, some 20, some 100, some 10, some 15, some 20, some 25, some 30⟩

/-! ### Claims -/

/-- C1: for every table state and every insert mapping whose `date`
value exactly equals the `date` value of some existing row, `add_data`
returns the duplicate outcome and performs no mutation: the resulting
table is the very table passed in, row for row and cell for cell. -/
theorem add_data_duplicate_rejected (t : Table) (m : List (String × Value))
    (d : Value) (hcol : "date" ∈ t.cols) (hm : lookupVal m "date" = some d)
    (hd : d ∈ dateVals t) :
    add_data m t = some (dupMsg, t) := by
  unfold add_data
  rw [if_pos hcol, hm]
  simp [hd]

theorem add_data_duplicate_rejected_witness :
    add_data [("date", strV "2023-01-01"), ("revenue", intV 300)] T1
      = some (dupMsg, T1) :=
  add_data_duplicate_rejected T1
    [("date", strV "2023-01-01"), ("revenue", intV 300)]
    (strV "2023-01-01") (by decide) (by rfl) (by decide)

/-- C4: an unrecognized filter choice (anything outside 1..5) yields a
result with no rows, without an error; `filter_data` reads the table
without returning any modified state. -/
theorem filter_data_invalid_choice (t : Table) (choice : Int)
    (h : choice < 1 ∨ 5 < choice) :
    filter_data choice t = none ∧ rowsOfResult (filter_data choice t) = [] := by
  have h1 : ¬ choice = 1 := by omega
  have h2 : ¬ choice = 2 := by omega
  have h3 : ¬ choice = 3 := by omega
  have h4 : ¬ choice = 4 := by omega
  have h5 : ¬ choice = 5 := by omega
  have e : filter_data choice t = none := by
    unfold filter_data
    rw [if_neg h1, if_neg h2, if_neg h3, if_neg h4, if_neg h5]
  exact ⟨e, by rw [e]; rfl⟩

theorem filter_data_invalid_choice_witness :
    filter_data 99 T1 = none ∧ rowsOfResult (filter_data 99 T1) = [] :=
  filter_data_invalid_choice T1 99 (Or.inr (by norm_num))

/-- C9: `read_data` is pure and deterministic — it returns the stored
table unchanged, leaves the stored table as it was, and a second call
with no mutation in between returns the identical content. -/
theorem read_data_pure (t : Table) :
    (read_data t).2 = t ∧
    (read_data ((read_data t).2)).2 = t ∧
    (read_data ((read_data t).2)).1 = (read_data t).1 :=
  ⟨rfl, rfl, rfl⟩

/-- `itPred` holds exactly on rows whose `IT` cell is an integer at
least 30000. -/
theorem itPred_eq_true (t : Table) (r : Nat × List Value) :
    itPred t r = true ↔
      ∃ z : Int, cell t.cols r.2 "IT" = intV z ∧ 30000 ≤ z := by
  unfold itPred
  cases h : cell t.cols r.2 "IT" <;> simp [h]

/-- C5: on a table whose rows carry a numeric `IT` column,
`filter_data 1` returns exactly the rows whose `IT` value is at least
30000, the boundary 30000 included; on the fixture with values
29000, 30000, 31000 it returns exactly the last two rows. -/
theorem filter_data_one_ge_30000 (t : Table)
    (hcol : "IT" ∈ t.cols) (hnum : isNumericCol t "IT" = true) :
    ∃ t', filter_data 1 t = some t' ∧ t'.cols = t.cols ∧
      (∀ r, r ∈ t'.rows ↔
        r ∈ t.rows ∧ ∃ z : Int, cell t.cols r.2 "IT" = intV z ∧ 30000 ≤ z) ∧
      filter_data 1 sampleIT
        = some ⟨["IT"], [(1, [intV 30000]), (2, [intV 31000])]⟩ := by
  refine ⟨⟨t.cols, t.rows.filter (itPred t)⟩, ?_, rfl, ?_, by decide⟩
  · unfold filter_data
    rw [if_pos rfl, if_pos hcol]
  · intro r
    rw [List.mem_filter, itPred_eq_true]

theorem filter_data_one_ge_30000_witness :
    ∃ t', filter_data 1 sampleIT = some t' ∧ t'.cols = sampleIT.cols ∧
      (∀ r, r ∈ t'.rows ↔
        r ∈ sampleIT.rows ∧
          ∃ z : Int, cell sampleIT.cols r.2 "IT" = intV z ∧ 30000 ≤ z) ∧
      filter_data 1 sampleIT
        = some ⟨["IT"], [(1, [intV 30000]), (2, [intV 31000])]⟩ :=
  filter_data_one_ge_30000 sampleIT (by decide) (by decide)

/-- C6 (amended): on a table having at least one numeric column,
`analyze_data` reports statistics for the numeric columns and only for
them (a column appears in the output exactly when it is a numeric
column of the frame), each column's statistics — count, mean, squared
standard deviation, minimum, the three quartiles, maximum — computed
by `statsOf` over the column's non-null values; over the column
10, 20, 30 it reports count 3, mean 20, minimum 10, maximum 30 (and
squared deviation 100, quartiles 15, 20, 25).  Without a numeric
column `describe` instead falls back to object statistics, see the
companion counterexample. -/
theorem analyze_data_numeric_columns :
    (∀ t : Table, ∀ c0 : String, c0 ∈ t.cols → isNumericCol t c0 = true →
      ((∀ c : String, c ∈ (analyze_data t).map Prod.fst ↔
          c ∈ t.cols ∧ isNumericCol t c = true) ∧
        (∀ c s, (c, ColSummary.numeric s) ∈ analyze_data t →
          s = statsOf (numericData t c)))) ∧
    analyze_data sampleNum = [("A", ColSummary.numeric sampleNumStats)] := by
  have hsort : sortInts [10, 20, 30] = [10, 20, 30] := by decide
  have hmean : meanOf [10, 20, 30] = some 20 := by
    unfold meanOf
    norm_num [List.sum_cons, List.sum_nil]
  have hstats : statsOf [10, 20, 30] = sampleNumStats := by
    unfold statsOf sampleNumStats
    simp only [Stats.mk.injEq]
    refine ⟨by decide, hmean, ?_, ?_, ?_, ?_, ?_, ?_⟩
    · rw [hmean]
      norm_num [List.sum_cons, List.sum_nil]
    · rw [hsort]
      norm_num
    · unfold quantileOf
      rw [hsort]
      simp only [ratFloor_eq, List.length_cons, List.length_nil]
      norm_num [List.getD]
    · unfold quantileOf
      rw [hsort]
      simp only [ratFloor_eq, List.length_cons, List.length_nil]
      norm_num [List.getD]
    · unfold quantileOf
      rw [hsort]
      simp only [ratFloor_eq, List.length_cons, List.length_nil]
      norm_num [List.getD]
    · rw [hsort]
      norm_num
  refine ⟨?_, ?_⟩
  · intro t c0 hc0 hnum0
    have he : (t.cols.filter (fun c => isNumericCol t c)).isEmpty = false :=
      isEmpty_eq_false_of_mem _ c0 (List.mem_filter.2 ⟨hc0, hnum0⟩)
    have hbranch : analyze_data t =
        (t.cols.filter (fun c => isNumericCol t c)).map
          (fun c => (c, ColSummary.numeric (statsOf (numericData t c)))) := by
      unfold analyze_data
      rw [if_neg (by simp [he])]
    constructor
    · intro c
      rw [hbranch, List.map_map]
      simp [List.mem_filter, Function.comp_def]
    · intro c s h
      rw [hbranch] at h
      rcases List.mem_map.1 h with ⟨a, _, hpair⟩
      have h1 : a = c := congrArg Prod.fst hpair
      have h2 : ColSummary.numeric (statsOf (numericData t a))
          = ColSummary.numeric s := congrArg Prod.snd hpair
      injection h2 with h3
      rw [← h3, h1]
  · have hcols :
        sampleNum.cols.filter (fun c => isNumericCol sampleNum c) = ["A"] := by
      decide
    have hdata : numericData sampleNum "A" = [10, 20, 30] := by decide
    unfold analyze_data
    rw [hcols]
    simp [hdata, hstats]

theorem analyze_data_numeric_columns_witness :
    sampleNumStats = statsOf (numericData sampleNum "A") :=
  (analyze_data_numeric_columns.1 sampleNum "A" (by decide) (by decide)).2
    "A" sampleNumStats
    (by rw [analyze_data_numeric_columns.2]; exact List.mem_singleton.2 rfl)

/-- C6 counterexample: on a table with no numeric column, `describe()`
does not report statistics only for numeric columns — it falls back to
object-column statistics, so the non-numeric column `product` appears
in the analysis output. -/
theorem analyze_data_object_fallback :
    (analyze_data sampleText).map Prod.fst = ["product"] ∧
    isNumericCol sampleText "product" = false := by decide

/-- C10: editing at a row index not present in the table does not
fail: `edit_data` reports success and enlarges the table by one row,
appended at the end and labeled with the requested index, holding the
new value at the requested column and absent cells everywhere else. -/
theorem edit_data_out_of_range_appends (t : Table) (i : Nat) (c : String)
    (v : Value) (hno : ∀ r ∈ t.rows, r.1 ≠ i) :
    ∃ t', edit_data i c v t = (editOkMsg, t') ∧
      t'.rows.length = t.rows.length + 1 ∧
      (∃ vs, nth t'.rows t.rows.length = some (i, vs)) ∧
      cellAt t' t.rows.length c = v ∧
      (∀ c', c' ≠ c → cellAt t' t.rows.length c' = nullV) := by
  have hlab : hasLabel i t.rows = false := hasLabel_eq_false i t.rows hno
  by_cases hc : c ∈ t.cols
  · refine ⟨⟨t.cols,
      t.rows ++ [(i, t.cols.map fun c2 => if c2 = c then v else nullV)]⟩,
      ?_, by simp, ?_, ?_, ?_⟩
    · unfold edit_data
      rw [if_pos hc, if_pos hc, hlab]
      simp
    · refine ⟨t.cols.map fun c2 => if c2 = c then v else nullV, ?_⟩
      have := nth_append_right t.rows
        [(i, t.cols.map fun c2 => if c2 = c then v else nullV)] 0
      simpa using this
    · have hn : nth (t.rows ++
          [(i, t.cols.map fun c2 => if c2 = c then v else nullV)])
          t.rows.length
          = some (i, t.cols.map fun c2 => if c2 = c then v else nullV) := by
        have := nth_append_right t.rows
          [(i, t.cols.map fun c2 => if c2 = c then v else nullV)] 0
        simpa using this
      unfold cellAt
      rw [hn]
      exact newRow_cell_self t.cols c v hc
    · intro c' hc'
      have hn : nth (t.rows ++
          [(i, t.cols.map fun c2 => if c2 = c then v else nullV)])
          t.rows.length
          = some (i, t.cols.map fun c2 => if c2 = c then v else nullV) := by
        have := nth_append_right t.rows
          [(i, t.cols.map fun c2 => if c2 = c then v else nullV)] 0
        simpa using this
      unfold cellAt
      rw [hn]
      exact newRow_cell_other t.cols c v c' hc'
  · refine ⟨⟨t.cols ++ [c],
      (t.rows.map fun r => (r.1, r.2 ++ [nullV])) ++
        [(i, (t.cols ++ [c]).map fun c2 => if c2 = c then v else nullV)]⟩,
      ?_, by simp, ?_, ?_, ?_⟩
    · unfold edit_data
      rw [if_neg hc, if_neg hc, hlab]
      simp
    · refine ⟨(t.cols ++ [c]).map fun c2 => if c2 = c then v else nullV, ?_⟩
      have := nth_append_right (t.rows.map fun r => (r.1, r.2 ++ [nullV]))
        [(i, (t.cols ++ [c]).map fun c2 => if c2 = c then v else nullV)] 0
      simpa using this
    · have hn : nth ((t.rows.map fun r => (r.1, r.2 ++ [nullV])) ++
          [(i, (t.cols ++ [c]).map fun c2 => if c2 = c then v else nullV)])
          t.rows.length
          = some (i, (t.cols ++ [c]).map fun c2 => if c2 = c then v else nullV) := by
        have := nth_append_right (t.rows.map fun r => (r.1, r.2 ++ [nullV]))
          [(i, (t.cols ++ [c]).map fun c2 => if c2 = c then v else nullV)] 0
        simpa using this
      unfold cellAt
      rw [hn]
      exact newRow_cell_self (t.cols ++ [c]) c v (by simp)
    · intro c' hc'
      have hn : nth ((t.rows.map fun r => (r.1, r.2 ++ [nullV])) ++
          [(i, (t.cols ++ [c]).map fun c2 => if c2 = c then v else nullV)])
          t.rows.length
          = some (i, (t.cols ++ [c]).map fun c2 => if c2 = c then v else nullV) := by
        have := nth_append_right (t.rows.map fun r => (r.1, r.2 ++ [nullV]))
          [(i, (t.cols ++ [c]).map fun c2 => if c2 = c then v else nullV)] 0
        simpa using this
      unfold cellAt
      rw [hn]
      exact newRow_cell_other (t.cols ++ [c]) c v c' hc'

theorem edit_data_out_of_range_appends_witness :
    ∃ t', edit_data 5 "revenue" (intV 9) T1 = (editOkMsg, t') ∧
      t'.rows.length = T1.rows.length + 1 ∧
      (∃ vs, nth t'.rows T1.rows.length = some (5, vs)) ∧
      cellAt t' T1.rows.length "revenue" = intV 9 ∧
      (∀ c', c' ≠ "revenue" → cellAt t' T1.rows.length c' = nullV) :=
  edit_data_out_of_range_appends T1 5 "revenue" (intV 9) (by decide)

/-- C3: deleting the row at an in-range index `i` of an `N`-row table
with canonical positional labels yields an `(N-1)`-row table, again
canonically labeled (indices contiguous, no gap), in which the rows
before `i` are unchanged, labels included, and each row formerly at a
position `j > i` now sits at position `j - 1`. -/
theorem delete_data_closes_gap (t : Table) (i : Nat)
    (hcan : t.canonical) (hi : i < t.rows.length) :
    ∃ t', delete_data i t = some (delOkMsg, t') ∧ t'.cols = t.cols ∧
      t'.rows.length + 1 = t.rows.length ∧
      t'.canonical ∧
      (∀ j, j < i → nth t'.rows j = nth t.rows j) ∧
      (∀ j, i < j → j < t.rows.length →
        (nth t'.rows (j - 1)).map Prod.snd = (nth t.rows j).map Prod.snd) := by
  have hlab : hasLabel i t.rows = true :=
    hasLabel_of_canonical i 0 t.rows hcan (Nat.zero_le i) (by simpa using hi)
  have hfilter : t.rows.filter (fun r => !(r.1 == i)) = dropIdx t.rows i :=
    filter_label_eq_dropIdx i 0 t.rows hcan (Nat.zero_le i) (by simpa using hi)
  have hrows : t.rows = renumberFrom 0 (t.rows.map Prod.snd) :=
    eq_renumberFrom_of_canonical 0 t.rows hcan
  have hlen : (t.rows.map Prod.snd).length = t.rows.length := List.length_map _ _
  refine ⟨⟨t.cols,
      renumberFrom 0 ((t.rows.filter (fun r => !(r.1 == i))).map Prod.snd)⟩,
      ?_, rfl, ?_, ?_, ?_, ?_⟩
  · unfold delete_data
    rw [hlab]
    simp
  · simp only [hfilter, map_dropIdx, length_renumberFrom]
    have := length_dropIdx (t.rows.map Prod.snd) i (by omega)
    omega
  · exact canonicalFrom_renumberFrom 0 _
  · intro j hj
    rw [hfilter, map_dropIdx, nth_renumberFrom, nth_dropIdx_lt _ _ _ hj]
    conv_rhs => rw [hrows]
    rw [nth_renumberFrom]
  · intro j hij hjN
    rw [hfilter, map_dropIdx, nth_renumberFrom,
      nth_dropIdx_ge _ _ _ (by omega), Nat.sub_add_cancel (by omega)]
    conv_rhs => rw [hrows]
    rw [nth_renumberFrom]
    cases nth (t.rows.map Prod.snd) j <;> simp

theorem delete_data_closes_gap_witness :
    ∃ t', delete_data 1 T3 = some (delOkMsg, t') ∧ t'.cols = T3.cols ∧
      t'.rows.length + 1 = T3.rows.length ∧
      t'.canonical ∧
      (∀ j, j < 1 → nth t'.rows j = nth T3.rows j) ∧
      (∀ j, 1 < j → j < T3.rows.length →
        (nth t'.rows (j - 1)).map Prod.snd = (nth T3.rows j).map Prod.snd) :=
  delete_data_closes_gap T3 1 (by decide) (by decide)

/-- C8: updating the cell at an in-range row position `i` and a column
`c` of the fixed column set overwrites exactly that cell with the new
value, reports success, and leaves the column set, the row count, and
every other cell unchanged. -/
theorem edit_data_updates_single_cell (t : Table) (i : Nat) (c : String)
    (v : Value) (hw : t.WF) (hcan : t.canonical) (hi : i < t.rows.length)
    (hc : c ∈ t.cols) :
    ∃ t', edit_data i c v t = (editOkMsg, t') ∧
      t'.cols = t.cols ∧ t'.rows.length = t.rows.length ∧
      cellAt t' i c = v ∧
      (∀ p c', p < t.rows.length → ¬(p = i ∧ c' = c) →
        cellAt t' p c' = cellAt t p c') := by
  have hlab : hasLabel i t.rows = true :=
    hasLabel_of_canonical i 0 t.rows hcan (Nat.zero_le i) (by simpa using hi)
  have hrows : t.rows = renumberFrom 0 (t.rows.map Prod.snd) :=
    eq_renumberFrom_of_canonical 0 t.rows hcan
  have hnthrow : ∀ p, p < t.rows.length →
      ∃ vs, nth t.rows p = some (p, vs) ∧ vs.length = t.cols.length := by
    intro p hp
    obtain ⟨vs, hvs⟩ := nth_of_lt (t.rows.map Prod.snd) p (by simpa using hp)
    refine ⟨vs, ?_, ?_⟩
    · conv_lhs => rw [hrows]
      rw [nth_renumberFrom, hvs]
      simp
    · have hmem : (p, vs) ∈ t.rows := by
        apply mem_of_nth t.rows p
        conv_lhs => rw [hrows]
        rw [nth_renumberFrom, hvs]
        simp
      exact hw (p, vs) hmem
  refine ⟨⟨t.cols, t.rows.map fun r =>
      if r.1 == i then (r.1, setV r.2 (idxOf c t.cols) v) else r⟩,
      ?_, rfl, by simp, ?_, ?_⟩
  · unfold edit_data
    rw [if_pos hc, if_pos hc, hlab]
    simp
  · obtain ⟨vs, hvs, hlenvs⟩ := hnthrow i hi
    have hg : nth (t.rows.map fun r =>
        if r.1 == i then (r.1, setV r.2 (idxOf c t.cols) v) else r) i
        = some (i, setV vs (idxOf c t.cols) v) := by
      rw [nth_map, hvs]
      simp
    rw [cellAt_of_nth ⟨t.cols, _⟩ i c _ hg]
    unfold cell
    exact getV_setV_self vs (idxOf c t.cols) v
      (by rw [hlenvs]; exact idxOf_lt_of_mem c t.cols hc)
  · intro p c' hp hne
    obtain ⟨vs, hvs, hlenvs⟩ := hnthrow p hp
    by_cases hpi : p = i
    · have hc' : ¬ c' = c := fun hcc => hne ⟨hpi, hcc⟩
      have hg : nth (t.rows.map fun r =>
          if r.1 == i then (r.1, setV r.2 (idxOf c t.cols) v) else r) p
          = some (p, setV vs (idxOf c t.cols) v) := by
        rw [nth_map, hvs]
        simp [hpi]
      rw [cellAt_of_nth ⟨t.cols, _⟩ p c' _ hg, cellAt_of_nth t p c' _ hvs]
      unfold cell
      by_cases hmem : c' ∈ t.cols
      · exact getV_setV_ne vs _ _ v
          (fun hidx => hc' (idxOf_inj c' c t.cols hmem hc hidx))
      · rw [idxOf_of_not_mem c' t.cols hmem]
        have h1 : (setV vs (idxOf c t.cols) v).length ≤ t.cols.length := by
          rw [length_setV, hlenvs]
        rw [getV_of_le _ _ h1, getV_of_le _ _ (le_of_eq hlenvs)]
    · have hg : nth (t.rows.map fun r =>
          if r.1 == i then (r.1, setV r.2 (idxOf c t.cols) v) else r) p
          = some (p, vs) := by
        rw [nth_map, hvs]
        simp [hpi]
      rw [cellAt_of_nth ⟨t.cols, _⟩ p c' _ hg, cellAt_of_nth t p c' _ hvs]

/-- C2: inserting a mapping whose `date` value occurs in no existing
row reports success, appends the new row at the end (at position equal
to the old row count, labeled with that count), increases the row
count by exactly one, and leaves the cells of every previously
existing row unchanged at its old index (cells read per column name,
so old rows read absent both before and after in any column the
mapping may have introduced). -/
theorem add_data_fresh_appends (t : Table) (m : List (String × Value))
    (d : Value) (hw : t.WF) (hcol : "date" ∈ t.cols)
    (hm : lookupVal m "date" = some d) (hd : d ∉ dateVals t) :
    ∃ t', add_data m t = some (addOkMsg, t') ∧
      t'.rows.length = t.rows.length + 1 ∧
      (∃ vs, nth t'.rows t.rows.length = some (t.rows.length, vs)) ∧
      (∀ p, p < t.rows.length → ∀ c, cellAt t' p c = cellAt t p c) := by
  refine ⟨⟨t.cols ++ dedup [] ((m.map Prod.fst).filter (fun k => !(decide (k ∈ t.cols)))),
      renumberFrom 0
        ((t.rows.map (fun r => r.2 ++ List.replicate
            (dedup [] ((m.map Prod.fst).filter (fun k => !(decide (k ∈ t.cols))))).length
            nullV)) ++
          [(t.cols ++ dedup [] ((m.map Prod.fst).filter (fun k => !(decide (k ∈ t.cols))))).map
            (fun c => (lookupVal m c).getD nullV)])⟩,
      ?_, ?_, ?_, ?_⟩
  · unfold add_data
    rw [if_pos hcol]
    simp only [hm]
    rw [if_neg hd]
  · rw [length_renumberFrom]
    simp
  · have h0 := nth_append_right
      (t.rows.map (fun r => r.2 ++ List.replicate
        (dedup [] ((m.map Prod.fst).filter (fun k => !(decide (k ∈ t.cols))))).length
        nullV))
      [(t.cols ++ dedup [] ((m.map Prod.fst).filter (fun k => !(decide (k ∈ t.cols))))).map
        (fun c => (lookupVal m c).getD nullV)] 0
    rw [Nat.add_zero, List.length_map] at h0
    refine ⟨(t.cols ++ dedup [] ((m.map Prod.fst).filter
        (fun k => !(decide (k ∈ t.cols))))).map
        (fun c => (lookupVal m c).getD nullV), ?_⟩
    rw [nth_renumberFrom, h0]
    simp [nth]
  · intro p hp c
    obtain ⟨r, hr⟩ := nth_of_lt t.rows p hp
    have hvslen : r.2.length = t.cols.length := hw r (mem_of_nth _ _ _ hr)
    have hA : nth (t.rows.map (fun r => r.2 ++ List.replicate
        (dedup [] ((m.map Prod.fst).filter (fun k => !(decide (k ∈ t.cols))))).length
        nullV)) p
        = some (r.2 ++ List.replicate
            (dedup [] ((m.map Prod.fst).filter (fun k => !(decide (k ∈ t.cols))))).length
            nullV) := by
      rw [nth_map, hr]
      rfl
    have hnth' : nth (renumberFrom 0
        ((t.rows.map (fun r => r.2 ++ List.replicate
            (dedup [] ((m.map Prod.fst).filter (fun k => !(decide (k ∈ t.cols))))).length
            nullV)) ++
          [(t.cols ++ dedup [] ((m.map Prod.fst).filter (fun k => !(decide (k ∈ t.cols))))).map
            (fun c => (lookupVal m c).getD nullV)])) p
        = some (p, r.2 ++ List.replicate
            (dedup [] ((m.map Prod.fst).filter (fun k => !(decide (k ∈ t.cols))))).length
            nullV) := by
      rw [nth_renumberFrom, nth_append_left _ _ _ (by rw [List.length_map]; exact hp), hA]
      simp
    rw [cellAt_of_nth ⟨_, _⟩ p c _ hnth', cellAt_of_nth t p c _ hr]
    unfold cell
    by_cases hc : c ∈ t.cols
    · rw [idxOf_append_of_mem c t.cols _ hc]
      exact getV_append_left _ _ _
        (by rw [hvslen]; exact idxOf_lt_of_mem c t.cols hc)
    · rw [idxOf_append_of_not_mem c t.cols _ hc, idxOf_of_not_mem c t.cols hc,
        ← hvslen, getV_append_right, getV_replicate,
        getV_of_le _ _ (Nat.le_refl _)]

theorem add_data_fresh_appends_witness :
    ∃ t', add_data [("date", strV "2023-01-03"), ("revenue", intV 300)] T1
        = some (addOkMsg, t') ∧
      t'.rows.length = T1.rows.length + 1 ∧
      (∃ vs, nth t'.rows T1.rows.length = some (T1.rows.length, vs)) ∧
      (∀ p, p < T1.rows.length → ∀ c, cellAt t' p c = cellAt T1 p c) :=
  add_data_fresh_appends T1 [("date", strV "2023-01-03"), ("revenue", intV 300)]
    (strV "2023-01-03") (by decide) (by decide) (by rfl) (by decide)

theorem edit_data_updates_single_cell_witness :
    ∃ t', edit_data 1 "revenue" (intV 42) T3 = (editOkMsg, t') ∧
      t'.cols = T3.cols ∧ t'.rows.length = T3.rows.length ∧
      cellAt t' 1 "revenue" = intV 42 ∧
      (∀ p c', p < T3.rows.length → ¬(p = 1 ∧ c' = "revenue") →
        cellAt t' p c' = cellAt T3 p c') :=
  edit_data_updates_single_cell T3 1 "revenue" (intV 42)
    (by decide) (by decide) (by decide) (by decide)

/-- C7 counterexample: inserting a mapping that omits the `date`
column does not succeed — `add_data` evaluates `new_row_data['date']`,
which raises a `KeyError` (modeled as `none`), so an insert mapping
omitting some columns is not in general permitted. -/
theorem add_data_omitting_date_fails :
    add_data [("revenue", intV 7)] T7 = none := by decide

/-- C7 amended: the mutating operations preserve the table schema for
in-schema arguments — an insert whose mapping's keys all belong to the
fixed column set (the `date` key, required by `add_data`, among them)
keeps the column set and row widths intact, and when it appends a row
the columns the mapping omits are absent (null) in that new row; a
cell update at a column of the fixed set and a delete likewise
preserve the column set and row widths. -/
theorem mutations_preserve_schema (t : Table) (hw : t.WF) :
    (∀ m msg t', (∀ k ∈ m.map Prod.fst, k ∈ t.cols) →
      add_data m t = some (msg, t') → t'.cols = t.cols ∧ t'.WF) ∧
    (∀ m d t', (∀ k ∈ m.map Prod.fst, k ∈ t.cols) →
      lookupVal m "date" = some d → d ∉ dateVals t →
      add_data m t = some (addOkMsg, t') →
      ∀ c ∈ t.cols, c ∉ m.map Prod.fst →
        cellAt t' t.rows.length c = nullV) ∧
    (∀ i c v, c ∈ t.cols →
      (edit_data i c v t).2.cols = t.cols ∧ (edit_data i c v t).2.WF) ∧
    (∀ i msg t', delete_data i t = some (msg, t') →
      t'.cols = t.cols ∧ t'.WF) := by
  refine ⟨?_, ?_, ?_, ?_⟩
  · intro m msg t' hkeys heq
    by_cases hcol : "date" ∈ t.cols
    · unfold add_data at heq
      rw [if_pos hcol] at heq
      cases hlk : lookupVal m "date" with
      | none => simp [hlk] at heq
      | some d =>
        simp only [hlk] at heq
        by_cases hdup : d ∈ dateVals t
        · rw [if_pos hdup] at heq
          injection heq with h'
          have hT : t = t' := congrArg Prod.snd h'
          rw [← hT]
          exact ⟨rfl, hw⟩
        · rw [if_neg hdup] at heq
          injection heq with h'
          have hnil : (m.map Prod.fst).filter
              (fun k => !(decide (k ∈ t.cols))) = [] :=
            filter_not_mem_nil _ _ hkeys
          have hT : (⟨t.cols ++ dedup []
                ((m.map Prod.fst).filter (fun k => !(decide (k ∈ t.cols)))),
              renumberFrom 0
                ((t.rows.map (fun r => r.2 ++ List.replicate
                    (dedup [] ((m.map Prod.fst).filter
                      (fun k => !(decide (k ∈ t.cols))))).length nullV)) ++
                  [(t.cols ++ dedup [] ((m.map Prod.fst).filter
                      (fun k => !(decide (k ∈ t.cols))))).map
                    (fun c => (lookupVal m c).getD nullV)])⟩ : Table)
              = t' := congrArg Prod.snd h'
          rw [← hT]
          constructor
          · simp [hnil, dedup]
          · intro r hr
            have hsnd := snd_mem_renumberFrom 0 _ r hr
            rcases List.mem_append.1 hsnd with hin | hin
            · rcases List.mem_map.1 hin with ⟨r0, hr0, hfr⟩
              rw [← hfr]
              simp [hw r0 hr0]
            · rcases List.mem_singleton.1 hin with hfr
              rw [hfr]
              simp
    · unfold add_data at heq
      rw [if_neg hcol] at heq
      exact absurd heq (by simp)
  · intro m d t' hkeys hlk hdup heq
    have hcol : "date" ∈ t.cols :=
      hkeys "date" (mem_keys_of_lookupVal m "date" d hlk)
    have heq2 : add_data m t = some (addOkMsg,
        ⟨t.cols ++ dedup []
            ((m.map Prod.fst).filter (fun k => !(decide (k ∈ t.cols)))),
          renumberFrom 0
            ((t.rows.map (fun r => r.2 ++ List.replicate
                (dedup [] ((m.map Prod.fst).filter
                  (fun k => !(decide (k ∈ t.cols))))).length nullV)) ++
              [(t.cols ++ dedup [] ((m.map Prod.fst).filter
                  (fun k => !(decide (k ∈ t.cols))))).map
                (fun c => (lookupVal m c).getD nullV)])⟩) := by
      unfold add_data
      rw [if_pos hcol]
      simp only [hlk]
      rw [if_neg hdup]
    rw [heq2] at heq
    injection heq with h'
    have hT : (⟨t.cols ++ dedup []
          ((m.map Prod.fst).filter (fun k => !(decide (k ∈ t.cols)))),
        renumberFrom 0
          ((t.rows.map (fun r => r.2 ++ List.replicate
              (dedup [] ((m.map Prod.fst).filter
                (fun k => !(decide (k ∈ t.cols))))).length nullV)) ++
            [(t.cols ++ dedup [] ((m.map Prod.fst).filter
                (fun k => !(decide (k ∈ t.cols))))).map
              (fun c => (lookupVal m c).getD nullV)])⟩ : Table)
        = t' := congrArg Prod.snd h'
    intro c hc hc'
    rw [← hT]
    have h0 := nth_append_right
      (t.rows.map (fun r => r.2 ++ List.replicate
        (dedup [] ((m.map Prod.fst).filter (fun k => !(decide (k ∈ t.cols))))).length
        nullV))
      [(t.cols ++ dedup [] ((m.map Prod.fst).filter (fun k => !(decide (k ∈ t.cols))))).map
        (fun c => (lookupVal m c).getD nullV)] 0
    rw [Nat.add_zero, List.length_map] at h0
    have hnth : nth (renumberFrom 0
        ((t.rows.map (fun r => r.2 ++ List.replicate
            (dedup [] ((m.map Prod.fst).filter
              (fun k => !(decide (k ∈ t.cols))))).length nullV)) ++
          [(t.cols ++ dedup [] ((m.map Prod.fst).filter
              (fun k => !(decide (k ∈ t.cols))))).map
            (fun c => (lookupVal m c).getD nullV)])) t.rows.length
        = some (t.rows.length,
            (t.cols ++ dedup [] ((m.map Prod.fst).filter
              (fun k => !(decide (k ∈ t.cols))))).map
              (fun c => (lookupVal m c).getD nullV)) := by
      rw [nth_renumberFrom, h0]
      simp [nth]
    rw [cellAt_of_nth ⟨_, _⟩ t.rows.length c _ hnth]
    have hc2 : c ∈ t.cols ++ dedup []
        ((m.map Prod.fst).filter (fun k => !(decide (k ∈ t.cols)))) :=
      List.mem_append_left _ hc
    unfold cell
    rw [getV_map _ _ _ _ (nth_idxOf c _ hc2), lookupVal_eq_none m c hc']
    rfl
  · intro i c v hc
    constructor
    · simp [edit_data, hc]
    · by_cases hl : hasLabel i t.rows = true
      · intro r hr
        have : (edit_data i c v t).2.rows = t.rows.map fun r =>
            if r.1 == i then (r.1, setV r.2 (idxOf c t.cols) v) else r := by
          simp [edit_data, hc, hl]
        rw [this] at hr
        rcases List.mem_map.1 hr with ⟨r0, hr0, hfr⟩
        have hcols : (edit_data i c v t).2.cols = t.cols := by
          simp [edit_data, hc]
        rw [hcols, ← hfr]
        by_cases hb : (r0.1 == i) = true
        · simp [hb, length_setV, hw r0 hr0]
        · simp only [hb]
          simp [hw r0 hr0]
      · intro r hr
        have : (edit_data i c v t).2.rows = t.rows ++
            [(i, t.cols.map fun c2 => if c2 = c then v else nullV)] := by
          simp [edit_data, hc, hl]
        rw [this] at hr
        have hcols : (edit_data i c v t).2.cols = t.cols := by
          simp [edit_data, hc]
        rw [hcols]
        rcases List.mem_append.1 hr with hin | hin
        · exact hw r hin
        · rcases List.mem_singleton.1 hin with hfr
          rw [hfr]
          simp
  · intro i msg t' heq
    unfold delete_data at heq
    by_cases hl : hasLabel i t.rows = true
    · rw [if_pos hl] at heq
      injection heq with h'
      have hT : (⟨t.cols, renumberFrom 0
            ((t.rows.filter (fun r => !(r.1 == i))).map Prod.snd)⟩ : Table)
          = t' := congrArg Prod.snd h'
      rw [← hT]
      refine ⟨rfl, ?_⟩
      intro r hr
      have hsnd := snd_mem_renumberFrom 0 _ r hr
      rcases List.mem_map.1 hsnd with ⟨r0, hr0, hfr⟩
      rw [← hfr]
      exact hw r0 (List.mem_of_mem_filter hr0)
    · rw [if_neg hl] at heq
      exact absurd heq (by simp)

theorem mutations_preserve_schema_witness :
    (edit_data 0 "revenue" (intV 7) T1).2.cols = T1.cols ∧
    (edit_data 0 "revenue" (intV 7) T1).2.WF :=
  (mutations_preserve_schema T1 (by decide)).2.2.1 0 "revenue" (intV 7) (by decide)

end DataCode
